import Mathlib

/-!
Shallow embedding of `src/audisp/plugins/filter/audisp-filter.c`, the
audisp-filter plugin of the audit-userspace repository.

Pure fragments of the C source are translated into executable Lean
definitions.  The external collaborators are modelled as explicit oracle
parameters:
* the ausearch matching engine: `rc : Int` is the value returned by
  `ausearch_cur_event` (positive = matched, zero = not matched, negative =
  error), and `valid : String → Bool` tells whether
  `ausearch_add_expression` accepts an expression (returns 0);
* the pipe: a `write` call either succeeds or fails, recorded by an oracle
  `ok : Nat → Bool` indexed by the call number, and the bytes that reached
  the pipe are collected as a list of chunks;
* the file system: `FileSys` describes what `open`/`fstat`/`fdopen` see;
* memory allocation inside `parse_line`: an `Alloc` record of success bits
  for `auparse_init`, `malloc` and `strdup`.
-/

set_option maxHeartbeats 1000000

namespace AudispFilter

/-- The C enumeration `enum { ALLOWLIST, BLOCKLIST }` (audisp-filter.c:55). -/
inductive Mode
  | ALLOWLIST
  | BLOCKLIST
deriving DecidableEq

/-- Classification of one `handle_event` call: the event was fully
forwarded, dropped, skipped because `ausearch_cur_event` reported an error
(the `rc < 0` branch, which logs and returns), or a `write` to the pipe
failed mid-event (which logs and returns). -/
inductive Outcome
  | forwarded
  | dropped
  | engineError
  | writeFailed
deriving DecidableEq

/-- Result of one `handle_event` call.  `decision` is `some fwd` when the
`forward_event` variable was assigned the value `fwd`, and `none` when the
`rc < 0` branch returned before assigning it a meaningful value.  `pipe`
lists the chunks actually written to `pipefd[1]`, in order. -/
structure HandleResult where
  decision : Option Bool
  pipe : List String
  outcome : Outcome
deriving DecidableEq

/-- The record-writing loop of `handle_event` (audisp-filter.c:128-138).
Each record issues two `write` calls: one for the record text, one for the
newline.  `ok` reports success of each call by index; on the first failed
call the loop returns (remaining records are not written).  Returns the
chunks written and whether a write failed. -/
def writeRecords (ok : Nat → Bool) : Nat → List String → List String × Bool
  | _, [] => ([], false)
  | idx, txt :: rest =>
    if ok idx then
      if ok (idx + 1) then
        let p := writeRecords ok (idx + 2) rest
        (txt :: "\n" :: p.1, p.2)
      else ([txt], true)
    else ([], true)

/-- The chunk sequence a fully forwarded event produces on the pipe:
each record text followed by a newline chunk, in record order. -/
def recordChunks : List String → List String
  | [] => []
  | r :: rest => r :: "\n" :: recordChunks rest

/-- The `if (forward_event)` block of `handle_event`
(audisp-filter.c:126-139). -/
def handle_event_forward (fwd : Bool) (records : List String) (ok : Nat → Bool) :
    HandleResult :=
  if fwd then
    let p := writeRecords ok 0 records
    { decision := some true, pipe := p.1,
      outcome := if p.2 then Outcome.writeFailed else Outcome.forwarded }
  else
    { decision := some false, pipe := [], outcome := Outcome.dropped }

/-- The classification and forwarding part of `handle_event`
(audisp-filter.c:113-139).  `rc` is the value of `ausearch_cur_event(au)`;
`records` are the rendered record texts of the current event. -/
def handle_event (mode : Mode) (rc : Int) (records : List String) (ok : Nat → Bool) :
    HandleResult :=
  if rc > 0 then
    handle_event_forward (if mode = Mode.ALLOWLIST then false else true) records ok
  else if rc = 0 then
    handle_event_forward (if mode = Mode.ALLOWLIST then true else false) records ok
  else
    { decision := none, pipe := [], outcome := Outcome.engineError }

lemma handle_event_forward_false (records : List String) (ok : Nat → Bool) :
    handle_event_forward false records ok =
      { decision := some false, pipe := [], outcome := Outcome.dropped } := rfl

lemma handle_event_forward_decision (fwd : Bool) (records : List String) (ok : Nat → Bool) :
    (handle_event_forward fwd records ok).decision = some fwd := by
  cases fwd <;> rfl

/-- If the decision was to forward, `handle_event` behaved exactly as the
forwarding block with `fwd = true`. -/
lemma handle_event_eq_forward_true (mode : Mode) (rc : Int) (records : List String)
    (ok : Nat → Bool) (h : (handle_event mode rc records ok).decision = some true) :
    handle_event mode rc records ok = handle_event_forward true records ok := by
  unfold handle_event at h ⊢
  by_cases h1 : rc > 0
  · simp only [h1, if_true] at h ⊢
    cases mode <;> simp_all [handle_event_forward_decision]
  · by_cases h2 : rc = 0
    · simp only [h1, h2, if_false, if_true] at h ⊢
      cases mode <;> simp_all [handle_event_forward_decision]
    · simp [h1, h2] at h

/-- With every write call succeeding, the loop writes each record followed
by a newline, in order, and reports no failure. -/
lemma writeRecords_all_ok (ok : Nat → Bool) (hok : ∀ i, ok i = true) :
    ∀ (records : List String) (idx : Nat),
      writeRecords ok idx records = (recordChunks records, false) := by
  intro records
  induction records with
  | nil => intro idx; rfl
  | cons r rest ih =>
    intro idx
    simp [writeRecords, hok idx, hok (idx + 1), ih (idx + 2), recordChunks]

/-- If the first failing write call is call number `idx + k` (and that call
is reached), the loop writes exactly the first `k` chunks and reports a
failure: the remaining records of the event are not written. -/
lemma writeRecords_stop (ok : Nat → Bool) :
    ∀ (records : List String) (idx k : Nat),
      ok (idx + k) = false → (∀ j, j < k → ok (idx + j) = true) →
      k < 2 * records.length →
      writeRecords ok idx records = ((recordChunks records).take k, true) := by
  intro records
  induction records with
  | nil =>
    intro idx k _ _ hk
    simp at hk
  | cons r rest ih =>
    intro idx k hfail hpre hk
    cases k with
    | zero =>
      have h0 : ok idx = false := by simpa using hfail
      simp [writeRecords, h0]
    | succ k1 =>
      have h0 : ok idx = true := by simpa using hpre 0 (Nat.succ_pos _)
      cases k1 with
      | zero =>
        have h1 : ok (idx + 1) = false := by simpa using hfail
        simp [writeRecords, h0, h1, recordChunks]
      | succ m =>
        have h1 : ok (idx + 1) = true := by
          simpa using hpre 1 (by omega)
        have hfail2 : ok (idx + 2 + m) = false := by
          have : idx + (m + 1 + 1) = idx + 2 + m := by omega
          rwa [this] at hfail
        have hpre2 : ∀ j, j < m → ok (idx + 2 + j) = true := by
          intro j hj
          have := hpre (j + 2) (by omega)
          have e : idx + (j + 2) = idx + 2 + j := by omega
          rwa [e] at this
        have hm : m < 2 * rest.length := by
          simp [List.length_cons] at hk
          omega
        simp [writeRecords, h0, h1, ih (idx + 2) m hfail2 hpre2 hm, recordChunks]

/-- C1: in ALLOW mode `handle_event` decides to forward exactly when the
matching engine reported no match (`rc = 0`); in BLOCK mode exactly when it
reported a match (`rc > 0`); and when the engine evaluation returns an
error (`rc < 0`) the event is neither forwarded nor dropped — `handle_event`
returns after logging, with nothing written to the pipe. -/
theorem C1_classification (rc : Int) (records : List String) (ok : Nat → Bool) :
    ((handle_event Mode.ALLOWLIST rc records ok).decision = some true ↔ rc = 0) ∧
    ((handle_event Mode.BLOCKLIST rc records ok).decision = some true ↔ 0 < rc) ∧
    (∀ mode, rc < 0 →
      (handle_event mode rc records ok).outcome = Outcome.engineError ∧
      (handle_event mode rc records ok).pipe = [] ∧
      (handle_event mode rc records ok).decision = none) := by
  refine ⟨?_, ?_, ?_⟩
  · by_cases h1 : rc > 0
    · have hd : (handle_event Mode.ALLOWLIST rc records ok).decision = some false := by
        simp [handle_event, h1, handle_event_forward_decision]
      rw [hd]
      constructor
      · intro hc; simp at hc
      · intro hc; omega
    · by_cases h2 : rc = 0
      · have hd : (handle_event Mode.ALLOWLIST rc records ok).decision = some true := by
          simp [handle_event, h1, h2, handle_event_forward_decision]
        rw [hd]
        simp [h2]
      · have hd : (handle_event Mode.ALLOWLIST rc records ok).decision = none := by
          simp [handle_event, h1, h2]
        rw [hd]
        constructor
        · intro hc; simp at hc
        · intro hc; exact absurd hc h2
  · by_cases h1 : rc > 0
    · have hd : (handle_event Mode.BLOCKLIST rc records ok).decision = some true := by
        simp [handle_event, h1, handle_event_forward_decision]
      rw [hd]
      simp [h1]
    · by_cases h2 : rc = 0
      · have hd : (handle_event Mode.BLOCKLIST rc records ok).decision = some false := by
          simp [handle_event, h1, h2, handle_event_forward_decision]
        rw [hd]
        constructor
        · intro hc; simp at hc
        · intro hc; omega
      · have hd : (handle_event Mode.BLOCKLIST rc records ok).decision = none := by
          simp [handle_event, h1, h2]
        rw [hd]
        constructor
        · intro hc; simp at hc
        · intro hc; omega
  · intro mode hneg
    have h1 : ¬ rc > 0 := by omega
    have h2 : ¬ rc = 0 := by omega
    simp [handle_event, h1, h2]

/-- Witness for C1 at a concrete engine error. -/
theorem C1_classification_witness :
    (handle_event Mode.ALLOWLIST (-1) ["r"] (fun _ => true)).outcome = Outcome.engineError ∧
    (handle_event Mode.ALLOWLIST (-1) ["r"] (fun _ => true)).pipe = [] ∧
    (handle_event Mode.ALLOWLIST (-1) ["r"] (fun _ => true)).decision = none :=
  (C1_classification (-1) ["r"] (fun _ => true)).2.2 Mode.ALLOWLIST (by decide)

/-- C4: a forwarded event writes exactly each record text followed by a
newline, in record order; if a write call fails, the remaining chunks of
that event are not written, the failure is recorded (logged), and
`handle_event` returns a result rather than diverging or terminating. -/
theorem C4_forwarding (mode : Mode) (rc : Int) (records : List String) (ok : Nat → Bool) :
    ((∀ i, ok i = true) → (handle_event mode rc records ok).decision = some true →
      (handle_event mode rc records ok).pipe = recordChunks records ∧
      (handle_event mode rc records ok).outcome = Outcome.forwarded) ∧
    (∀ k, ok k = false → (∀ j, j < k → ok j = true) → k < 2 * records.length →
      (handle_event mode rc records ok).decision = some true →
      (handle_event mode rc records ok).pipe = (recordChunks records).take k ∧
      (handle_event mode rc records ok).outcome = Outcome.writeFailed) := by
  constructor
  · intro hok hdec
    rw [handle_event_eq_forward_true mode rc records ok hdec]
    simp [handle_event_forward, writeRecords_all_ok ok hok records 0]
  · intro k hfail hpre hk hdec
    rw [handle_event_eq_forward_true mode rc records ok hdec]
    have hstop := writeRecords_stop ok records 0 k (by simpa using hfail)
      (by intro j hj; simpa using hpre j hj) hk
    simp [handle_event_forward, hstop]

/-- Witness for C4: a two-record event in BLOCK mode after a match, once
with all writes succeeding and once with the third write call failing. -/
theorem C4_forwarding_witness :
    ((handle_event Mode.BLOCKLIST 1 ["a", "b"] (fun _ => true)).pipe =
        recordChunks ["a", "b"] ∧
      (handle_event Mode.BLOCKLIST 1 ["a", "b"] (fun _ => true)).outcome =
        Outcome.forwarded) ∧
    ((handle_event Mode.BLOCKLIST 1 ["a", "b"] (fun i => decide (i < 2))).pipe =
        (recordChunks ["a", "b"]).take 2 ∧
      (handle_event Mode.BLOCKLIST 1 ["a", "b"] (fun i => decide (i < 2))).outcome =
        Outcome.writeFailed) :=
  ⟨(C4_forwarding Mode.BLOCKLIST 1 ["a", "b"] (fun _ => true)).1
      (fun _ => rfl) (by decide),
    (C4_forwarding Mode.BLOCKLIST 1 ["a", "b"] (fun i => decide (i < 2))).2 2
      (by decide) (by decide) (by decide) (by decide)⟩

/-! ## get_line (audisp-filter.c:202-229)

The C function repeatedly calls `fgets_unlocked(buf, size, f)` on a
1024-byte buffer until it sees a real newline; buffer fills that lack a
newline belong to an overlong logical line, which is skipped with a single
warning.  The stream is modelled as a `List Char`; `fgetsAux n` reads at
most `n` characters, stopping after a newline, exactly like `fgets` with a
buffer of `n + 1` bytes. -/

/-- Result of one `get_line` call: the returned line (`none` at EOF), the
remaining stream, the updated `*lineno`, and the number of
"Skipping line ...: too long" warnings emitted during the call. -/
structure GetLineResult where
  line : Option (List Char)
  rest : List Char
  lineno : Nat
  warns : Nat
deriving DecidableEq

/-- Character-level model of `fgets_unlocked` reading at most `n`
characters: consume characters until `n` are read or a newline was
consumed, returning the buffer contents and the unread remainder. -/
def fgetsAux : Nat → List Char → List Char × List Char
  | 0, s => ([], s)
  | _ + 1, [] => ([], [])
  | n + 1, c :: s =>
    if c = '\n' then ([c], s)
    else
      let r := fgetsAux n s
      (c :: r.1, r.2)

/-- Fuel-indexed loop of `get_line`.  `size` is `sizeof(buf)` (1024 in the
source), so each `fgets` fill reads at most `size - 1` characters.  The
`too_long` flag and the `lineno` updates follow audisp-filter.c:205-227
line by line; warnings are counted instead of sent to syslog. -/
def get_lineFuel (size : Nat) : Nat → List Char → Nat → Bool → GetLineResult
  | 0, s, lineno, _ => ⟨none, s, lineno, 0⟩
  | fuel + 1, s, lineno, too_long =>
    if s = [] then ⟨none, s, lineno, 0⟩
    else
      if '\n' ∈ (fgetsAux (size - 1) s).1 then
        if too_long then
          get_lineFuel size fuel (fgetsAux (size - 1) s).2 (lineno + 1) false
        else
          ⟨some ((fgetsAux (size - 1) s).1.takeWhile (fun c => c != '\n')),
            (fgetsAux (size - 1) s).2, lineno, 0⟩
      else
        if too_long then
          get_lineFuel size fuel (fgetsAux (size - 1) s).2 lineno true
        else
          ⟨(get_lineFuel size fuel (fgetsAux (size - 1) s).2 lineno true).line,
            (get_lineFuel size fuel (fgetsAux (size - 1) s).2 lineno true).rest,
            (get_lineFuel size fuel (fgetsAux (size - 1) s).2 lineno true).lineno,
            (get_lineFuel size fuel (fgetsAux (size - 1) s).2 lineno true).warns + 1⟩

/-- The `get_line` entry point: the `too_long` flag starts at 0 and every
loop iteration consumes at least one character of the stream, so
`s.length + 1` units of fuel always suffice. -/
def get_line (size : Nat) (s : List Char) (lineno : Nat) : GetLineResult :=
  get_lineFuel size (s.length + 1) s lineno false

lemma fgetsAux_newline :
    ∀ (l rest : List Char) (n : Nat), '\n' ∉ l → l.length + 1 ≤ n →
      fgetsAux n (l ++ '\n' :: rest) = (l ++ ['\n'], rest) := by
  intro l
  induction l with
  | nil =>
    intro rest n _ hn
    cases n with
    | zero => omega
    | succ m => simp [fgetsAux]
  | cons c l ih =>
    intro rest n hnl hn
    cases n with
    | zero => omega
    | succ m =>
      have hc : ¬ c = '\n' := by
        intro h; exact hnl (by simp [h])
      have hl : '\n' ∉ l := by
        intro h; exact hnl (by simp [h])
      simp [fgetsAux, hc, ih rest m hl (by simpa using hn)]

lemma fgetsAux_full :
    ∀ (n : Nat) (l rest : List Char), '\n' ∉ l → n ≤ l.length →
      fgetsAux n (l ++ rest) = (l.take n, l.drop n ++ rest) := by
  intro n
  induction n with
  | zero => intro l rest _ _; simp [fgetsAux]
  | succ m ih =>
    intro l rest hnl hn
    cases l with
    | nil => simp at hn
    | cons c l =>
      have hc : ¬ c = '\n' := by
        intro h; exact hnl (by simp [h])
      have hl : '\n' ∉ l := by
        intro h; exact hnl (by simp [h])
      simp [fgetsAux, hc, ih l rest hl (by simpa using hn)]

lemma fgetsAux_rest_length :
    ∀ (n : Nat) (s : List Char), (fgetsAux n s).2.length ≤ s.length := by
  intro n
  induction n with
  | zero => intro s; simp [fgetsAux]
  | succ m ih =>
    intro s
    cases s with
    | nil => simp [fgetsAux]
    | cons c t =>
      by_cases hc : c = '\n'
      · simp [fgetsAux, hc]
      · simp only [fgetsAux, hc, if_false, ite_false]
        have := ih t
        simp only [List.length_cons]
        omega

lemma fgetsAux_consumes (n : Nat) (s : List Char) (hs : s ≠ []) :
    (fgetsAux (n + 1) s).2.length < s.length := by
  cases s with
  | nil => exact absurd rfl hs
  | cons c t =>
    by_cases hc : c = '\n'
    · simp [fgetsAux, hc]
    · simp only [fgetsAux, hc, if_false, ite_false]
      have := fgetsAux_rest_length n t
      simp only [List.length_cons]
      omega

lemma takeWhile_append_newline :
    ∀ (l : List Char), '\n' ∉ l →
      (l ++ ['\n']).takeWhile (fun c => c != '\n') = l := by
  intro l
  induction l with
  | nil => simp [List.takeWhile]
  | cons c l ih =>
    intro hnl
    have hc : ¬ c = '\n' := by
      intro h; exact hnl (by simp [h])
    have hl : '\n' ∉ l := by
      intro h; exact hnl (by simp [h])
    have hb : (c != '\n') = true := bne_iff_ne.mpr hc
    simp [List.takeWhile, hb, ih hl]

/-- One-step unfolding of `get_lineFuel` on a nonempty stream. -/
lemma get_lineFuel_succ (size fuel : Nat) (s : List Char) (lineno : Nat)
    (too_long : Bool) (hs : s ≠ []) :
    get_lineFuel size (fuel + 1) s lineno too_long =
      if '\n' ∈ (fgetsAux (size - 1) s).1 then
        if too_long then
          get_lineFuel size fuel (fgetsAux (size - 1) s).2 (lineno + 1) false
        else
          ⟨some ((fgetsAux (size - 1) s).1.takeWhile (fun c => c != '\n')),
            (fgetsAux (size - 1) s).2, lineno, 0⟩
      else
        if too_long then
          get_lineFuel size fuel (fgetsAux (size - 1) s).2 lineno true
        else
          ⟨(get_lineFuel size fuel (fgetsAux (size - 1) s).2 lineno true).line,
            (get_lineFuel size fuel (fgetsAux (size - 1) s).2 lineno true).rest,
            (get_lineFuel size fuel (fgetsAux (size - 1) s).2 lineno true).lineno,
            (get_lineFuel size fuel (fgetsAux (size - 1) s).2 lineno true).warns + 1⟩ := by
  conv_lhs => rw [get_lineFuel]
  rw [if_neg hs]

/-- A line short enough for one buffer fill is returned with its newline
stripped, no `lineno` change and no warning. -/
lemma get_lineFuel_short (fuel : Nat) (l rest : List Char) (lineno : Nat)
    (hnl : '\n' ∉ l) (hlen : l.length ≤ 1022) :
    get_lineFuel 1024 (fuel + 1) (l ++ '\n' :: rest) lineno false =
      ⟨some l, rest, lineno, 0⟩ := by
  have hne : l ++ '\n' :: rest ≠ [] := by simp
  have hf : fgetsAux (1024 - 1) (l ++ '\n' :: rest) = (l ++ ['\n'], rest) :=
    fgetsAux_newline l rest (1024 - 1) hnl (by omega)
  rw [get_lineFuel_succ 1024 fuel _ lineno false hne, hf]
  simp [takeWhile_append_newline l hnl]

/-- The result of `get_lineFuel` does not depend on the fuel once the fuel
exceeds the stream length (each iteration consumes a character). -/
lemma get_lineFuel_congr :
    ∀ (f1 f2 : Nat) (s : List Char) (lineno : Nat) (tl : Bool),
      s.length < f1 → s.length < f2 →
      get_lineFuel 1024 f1 s lineno tl = get_lineFuel 1024 f2 s lineno tl := by
  intro f1
  induction f1 with
  | zero => intro f2 s lineno tl h1 _; omega
  | succ f ih =>
    intro f2 s lineno tl h1 h2
    cases f2 with
    | zero => omega
    | succ g =>
      by_cases hs : s = []
      · subst hs
        rw [get_lineFuel, get_lineFuel]
        simp
      · have hcons : (fgetsAux (1024 - 1) s).2.length < s.length := by
          have h1023 : (1024 : Nat) - 1 = 1022 + 1 := by norm_num
          rw [h1023]
          exact fgetsAux_consumes 1022 s hs
        have hlt1 : (fgetsAux (1024 - 1) s).2.length < f := by omega
        have hlt2 : (fgetsAux (1024 - 1) s).2.length < g := by omega
        rw [get_lineFuel_succ 1024 f s lineno tl hs,
          get_lineFuel_succ 1024 g s lineno tl hs]
        by_cases hm : '\n' ∈ (fgetsAux (1024 - 1) s).1
        · rw [if_pos hm, if_pos hm]
          cases tl with
          | false => rfl
          | true =>
            rw [if_pos rfl, if_pos rfl]
            exact ih g _ _ _ hlt1 hlt2
        · rw [if_neg hm, if_neg hm]
          cases tl with
          | false =>
            rw [if_neg Bool.false_ne_true, if_neg Bool.false_ne_true,
              ih g _ _ _ hlt1 hlt2]
          | true =>
            rw [if_pos rfl, if_pos rfl]
            exact ih g _ _ _ hlt1 hlt2

/-- With the `too_long` flag set, `get_line`'s loop discards everything up
to and including the next real newline, bumps `lineno` once, emits no
further warning, and then behaves like a fresh `get_line` on the remainder. -/
lemma get_lineFuel_too_long_skip :
    ∀ (N : Nat) (l rest : List Char) (lineno fuel : Nat),
      l.length ≤ N → '\n' ∉ l → (l ++ '\n' :: rest).length < fuel →
      get_lineFuel 1024 fuel (l ++ '\n' :: rest) lineno true =
        get_line 1024 rest (lineno + 1) := by
  intro N
  induction N with
  | zero =>
    intro l rest lineno fuel hN hnl hfuel
    have hl : l = [] := List.length_eq_zero.mp (by omega)
    subst hl
    cases fuel with
    | zero => simp at hfuel
    | succ f =>
      have hne : ([] : List Char) ++ '\n' :: rest ≠ [] := by simp
      have hf : fgetsAux (1024 - 1) (([] : List Char) ++ '\n' :: rest) =
          ([] ++ ['\n'], rest) :=
        fgetsAux_newline [] rest (1024 - 1) (by simp) (by omega)
      rw [get_lineFuel_succ 1024 f _ lineno true hne, hf]
      rw [if_pos (by simp : '\n' ∈ (([] : List Char) ++ ['\n'], rest).1), if_pos rfl]
      have hr : rest.length < f := by
        simp only [List.nil_append, List.length_cons] at hfuel
        omega
      exact get_lineFuel_congr f (rest.length + 1) rest (lineno + 1) false hr
        (Nat.lt_succ_self _)
  | succ N ih =>
    intro l rest lineno fuel hN hnl hfuel
    cases fuel with
    | zero => simp at hfuel
    | succ f =>
      have hne : l ++ '\n' :: rest ≠ [] := by simp
      by_cases hshort : l.length ≤ 1022
      · have hf : fgetsAux (1024 - 1) (l ++ '\n' :: rest) = (l ++ ['\n'], rest) :=
          fgetsAux_newline l rest (1024 - 1) hnl (by omega)
        rw [get_lineFuel_succ 1024 f _ lineno true hne, hf]
        rw [if_pos (by simp : '\n' ∈ (l ++ ['\n'], rest).1), if_pos rfl]
        have hr : rest.length < f := by
          simp only [List.length_append, List.length_cons] at hfuel
          omega
        exact get_lineFuel_congr f (rest.length + 1) rest (lineno + 1) false hr
          (Nat.lt_succ_self _)
      · have hlong : 1024 - 1 ≤ l.length := by omega
        have hf : fgetsAux (1024 - 1) (l ++ '\n' :: rest) =
            (l.take (1024 - 1), l.drop (1024 - 1) ++ '\n' :: rest) :=
          fgetsAux_full (1024 - 1) l ('\n' :: rest) hnl hlong
        have hmem : '\n' ∉ (l.take (1024 - 1), l.drop (1024 - 1) ++ '\n' :: rest).1 := by
          intro h; exact hnl (List.take_subset _ _ h)
        rw [get_lineFuel_succ 1024 f _ lineno true hne, hf]
        rw [if_neg hmem, if_pos rfl]
        have hdroplen : (l.drop (1024 - 1)).length ≤ N := by
          simp only [List.length_drop]
          omega
        have hdropnl : '\n' ∉ l.drop (1024 - 1) := by
          intro h; exact hnl (List.drop_subset _ _ h)
        have hfuel2 : (l.drop (1024 - 1) ++ '\n' :: rest).length < f := by
          simp only [List.length_append, List.length_cons, List.length_drop] at hfuel ⊢
          omega
        exact ih (l.drop (1024 - 1)) rest lineno f hdroplen hdropnl hfuel2

/-- C7: a logical config line longer than the 1024-byte buffer is excluded
whole — `get_line` behaves exactly as if reading started after that line's
newline with `lineno` bumped once — and exactly one too-long warning is
emitted for it, no matter how many buffer fills the line spans. -/
theorem C7_long_line_skipped (long rest : List Char) (lineno : Nat)
    (hnl : '\n' ∉ long) (hlen : 1024 < long.length) :
    get_line 1024 (long ++ '\n' :: rest) lineno =
      { get_line 1024 rest (lineno + 1) with
        warns := (get_line 1024 rest (lineno + 1)).warns + 1 } := by
  have hne : long ++ '\n' :: rest ≠ [] := by simp
  have hlong : 1024 - 1 ≤ long.length := by omega
  have hf : fgetsAux (1024 - 1) (long ++ '\n' :: rest) =
      (long.take (1024 - 1), long.drop (1024 - 1) ++ '\n' :: rest) :=
    fgetsAux_full (1024 - 1) long ('\n' :: rest) hnl hlong
  have hmem : '\n' ∉ (long.take (1024 - 1), long.drop (1024 - 1) ++ '\n' :: rest).1 := by
    intro h; exact hnl (List.take_subset _ _ h)
  have hdropnl : '\n' ∉ long.drop (1024 - 1) := by
    intro h; exact hnl (List.drop_subset _ _ h)
  have hfuel2 : (long.drop (1024 - 1) ++ '\n' :: rest).length <
      (long ++ '\n' :: rest).length := by
    simp only [List.length_append, List.length_cons, List.length_drop]
    omega
  show get_lineFuel 1024 ((long ++ '\n' :: rest).length + 1) (long ++ '\n' :: rest)
      lineno false = _
  rw [get_lineFuel_succ 1024 (long ++ '\n' :: rest).length _ lineno false hne, hf]
  rw [if_neg hmem, if_neg Bool.false_ne_true]
  rw [get_lineFuel_too_long_skip (long.drop (1024 - 1)).length (long.drop (1024 - 1))
    rest lineno (long ++ '\n' :: rest).length le_rfl hdropnl hfuel2]

/-- Witness for C7: a 1025-character line followed by EOF produces one
warning and nothing else. -/
theorem C7_long_line_skipped_witness :
    get_line 1024 (List.replicate 1025 'a' ++ '\n' :: []) 0 =
      { get_line 1024 [] (0 + 1) with
        warns := (get_line 1024 [] (0 + 1)).warns + 1 } :=
  C7_long_line_skipped (List.replicate 1025 'a') [] 0
    (by
      intro h
      rw [List.mem_replicate] at h
      exact absurd h.2 (by decide))
    (by rw [List.length_replicate]; omega)

/-! ## parse_line and load_rules (audisp-filter.c:271-385) -/

/-- The C `struct filter_rule` (without the intrusive `next` pointer; the
list structure is a Lean `List`). -/
structure FilterRule where
  expr : String
  lineno : Nat
deriving DecidableEq

/-- Effect of one `parse_line` call on the loader state: a rule was built
and will be appended; the line was skipped (`NULL` returned without
touching the `errors` counter: blank line, comment, `auparse_init` failure
or allocation failure); or the matching engine rejected the expression
(`NULL` returned and `errors` incremented). -/
inductive ParseOutcome
  | rule (r : FilterRule)
  | skip
  | err
deriving DecidableEq

/-- Success bits for the three fallible acquisition calls inside
`parse_line`: `auparse_init`, `malloc` of the rule node, and `strdup` of
the expression text. -/
structure Alloc where
  initOk : Bool
  mallocOk : Bool
  strdupOk : Bool
deriving DecidableEq

/-- The `parse_line` function (audisp-filter.c:271-318).  `valid e` models
`ausearch_add_expression` returning 0 for expression `e`.  Whitespace
skipping is `while (*line == ' ')`: only ASCII spaces are skipped. -/
def parse_line (valid : String → Bool) (a : Alloc) (line : List Char)
    (lineno : Nat) : ParseOutcome :=
  if !a.initOk then ParseOutcome.skip
  else
    let l := line.dropWhile (fun c => c = ' ')
    if l = [] ∨ l.head? = some '#' then ParseOutcome.skip
    else if !a.mallocOk then ParseOutcome.skip
    else if !a.strdupOk then ParseOutcome.skip
    else if valid (String.mk l) then ParseOutcome.rule ⟨String.mk l, lineno⟩
    else ParseOutcome.err

/-- Severity of a syslog call (only the levels the loader uses). -/
inductive Severity
  | err
  | warning
  | info
deriving DecidableEq

/-- One syslog message issued by the loader. -/
structure LogMsg where
  sev : Severity
  msg : String
deriving DecidableEq

/-- The `stat` data `load_rules` inspects on the opened descriptor:
`st_uid`, the `S_IWOTH` bit of `st_mode`, and `S_ISREG(st_mode)`. -/
structure FileStat where
  uid : Nat
  worldWritable : Bool
  regular : Bool
deriving DecidableEq

/-- What the file system presents to `load_rules`: `open` fails with
`ENOENT`, `open` fails otherwise, `fstat` fails, or the file opens and has
the given stat data, `fdopen` success bit and byte content. -/
inductive FileSys
  | absent
  | openError
  | statError
  | file (st : FileStat) (fdopenOk : Bool) (content : List Char)
deriving DecidableEq

/-- Result of `load_rules`: the linked list it built, the `int` it returned
(1 on a pre-loop hard failure, otherwise the final `errors` counter), and
the syslog messages of the pre-loop failure paths. -/
structure LoadResult where
  list : List FilterRule
  ret : Nat
  log : List LogMsg
deriving DecidableEq

/-- The `while (get_line(...)) { lineno++; parse_line; append_rule; }` loop
of `load_rules` (audisp-filter.c:374-381), fuel-indexed.  Returns the rules
appended and the final `errors` counter.  Each `get_line` success consumes
at least one character of the stream, so `content.length + 1` units of fuel
suffice. -/
def load_loop (valid : String → Bool) (alloc : Nat → Alloc) :
    Nat → List Char → Nat → List FilterRule × Nat
  | 0, _, _ => ([], 0)
  | fuel + 1, s, lineno =>
    let g := get_line 1024 s lineno
    match g.line with
    | none => ([], 0)
    | some buf =>
      let ln := g.lineno + 1
      let res := load_loop valid alloc fuel g.rest ln
      match parse_line valid (alloc ln) buf ln with
      | ParseOutcome.rule r => (r :: res.1, res.2)
      | ParseOutcome.skip => res
      | ParseOutcome.err => (res.1, res.2 + 1)

/-- The `load_rules` function (audisp-filter.c:323-385): open, fstat, the
three permission checks in source order (owner root, not world-writable,
regular file), `fdopen`, then the line loop.  The function returns `1` on
any pre-loop failure and the final `errors` counter otherwise. -/
def load_rules (valid : String → Bool) (alloc : Nat → Alloc) (fs : FileSys) :
    LoadResult :=
  match fs with
  | FileSys.absent =>
    ⟨[], 1, [⟨Severity.err, "Config file does not exist, skipping"⟩]⟩
  | FileSys.openError =>
    ⟨[], 1, [⟨Severity.err, "Error opening config file"⟩]⟩
  | FileSys.statError =>
    ⟨[], 1, [⟨Severity.err, "Error fstating config file"⟩]⟩
  | FileSys.file st fdopenOk content =>
    if st.uid ≠ 0 then
      ⟨[], 1, [⟨Severity.err, "Error - config file is not owned by root"⟩]⟩
    else if st.worldWritable then
      ⟨[], 1, [⟨Severity.err, "Error - config file is world writable"⟩]⟩
    else if !st.regular then
      ⟨[], 1, [⟨Severity.err, "Error - config file is not a regular file"⟩]⟩
    else if !fdopenOk then
      ⟨[], 1, [⟨Severity.err, "Error - fdopen failed"⟩]⟩
    else
      let res := load_loop valid alloc (content.length + 1) content 0
      ⟨res.1, res.2, []⟩

/-- A config file as a list of newline-terminated lines. -/
def unlines : List (List Char) → List Char
  | [] => []
  | l :: ls => l ++ '\n' :: unlines ls

/-- Line-list view of the `load_rules` loop: fold `parse_line` over the
logical lines, numbering them from `lineno + 1`. -/
def load_lines (valid : String → Bool) (alloc : Nat → Alloc) :
    List (List Char) → Nat → List FilterRule × Nat
  | [], _ => ([], 0)
  | l :: ls, lineno =>
    let ln := lineno + 1
    let res := load_lines valid alloc ls ln
    match parse_line valid (alloc ln) l ln with
    | ParseOutcome.rule r => (r :: res.1, res.2)
    | ParseOutcome.skip => res
    | ParseOutcome.err => (res.1, res.2 + 1)

/-- Specification predicate (for stating claims): the load failed before
reaching the line loop — `open`, `fstat`, one of the permission checks, or
`fdopen`. -/
def earlyFailure : FileSys → Bool
  | FileSys.absent => true
  | FileSys.openError => true
  | FileSys.statError => true
  | FileSys.file st fdopenOk _ =>
    (st.uid != 0) || st.worldWritable || !st.regular || !fdopenOk

/-- Specification predicate (for stating claims): the error counter the
line loop of `load_rules` would produce on this file. -/
def loopErrors (valid : String → Bool) (alloc : Nat → Alloc) : FileSys → Nat
  | FileSys.file _ _ content => (load_loop valid alloc (content.length + 1) content 0).2
  | _ => 0

/-- On a stream of newline-terminated lines that all fit in the buffer, the
real loop computes exactly the line-list fold. -/
lemma load_loop_unlines (valid : String → Bool) (alloc : Nat → Alloc) :
    ∀ (L : List (List Char)) (lineno fuel : Nat),
      (∀ l ∈ L, '\n' ∉ l ∧ l.length ≤ 1022) → L.length < fuel →
      load_loop valid alloc fuel (unlines L) lineno =
        load_lines valid alloc L lineno := by
  intro L
  induction L with
  | nil =>
    intro lineno fuel _ hf
    cases fuel with
    | zero => omega
    | succ f => rfl
  | cons l ls ih =>
    intro lineno fuel hshort hf
    cases fuel with
    | zero => simp at hf
    | succ f =>
      have hl := hshort l (List.mem_cons_self l ls)
      have hget : get_line 1024 (unlines (l :: ls)) lineno =
          ⟨some l, unlines ls, lineno, 0⟩ := by
        show get_lineFuel 1024 ((unlines (l :: ls)).length + 1) (unlines (l :: ls))
            lineno false = _
        rw [show unlines (l :: ls) = l ++ '\n' :: unlines ls from rfl]
        exact get_lineFuel_short _ l (unlines ls) lineno hl.1 hl.2
      have hrec : load_loop valid alloc f (unlines ls) (lineno + 1) =
          load_lines valid alloc ls (lineno + 1) :=
        ih (lineno + 1) f (fun x hx => hshort x (List.mem_cons_of_mem l hx))
          (by simp at hf; omega)
      simp only [load_loop, hget, hrec]
      rfl

/-- The line-list fold splits over list append, with the right-hand lines
numbered after the left-hand ones. -/
lemma load_lines_append (valid : String → Bool) (alloc : Nat → Alloc) :
    ∀ (A B : List (List Char)) (n : Nat),
      load_lines valid alloc (A ++ B) n =
        ((load_lines valid alloc A n).1 ++ (load_lines valid alloc B (n + A.length)).1,
          (load_lines valid alloc A n).2 + (load_lines valid alloc B (n + A.length)).2) := by
  intro A
  induction A with
  | nil => intro B n; simp [load_lines]
  | cons l A ih =>
    intro B n
    have harith : n + (l :: A).length = (n + 1) + A.length := by
      simp [List.length_cons]
      omega
    rw [harith]
    simp only [List.cons_append, load_lines]
    cases hp : parse_line valid (alloc (n + 1)) l (n + 1) <;>
      simp [hp, ih B (n + 1), Prod.ext_iff]
    all_goals omega

/-- The line-list fold around one distinguished middle line. -/
lemma load_lines_mid (valid : String → Bool) (alloc : Nat → Alloc)
    (A B : List (List Char)) (l : List Char) (n : Nat) :
    load_lines valid alloc (A ++ l :: B) n =
      (match parse_line valid (alloc (n + A.length + 1)) l (n + A.length + 1) with
        | ParseOutcome.rule r =>
          ((load_lines valid alloc A n).1 ++
              r :: (load_lines valid alloc B (n + A.length + 1)).1,
            (load_lines valid alloc A n).2 +
              (load_lines valid alloc B (n + A.length + 1)).2)
        | ParseOutcome.skip =>
          ((load_lines valid alloc A n).1 ++
              (load_lines valid alloc B (n + A.length + 1)).1,
            (load_lines valid alloc A n).2 +
              (load_lines valid alloc B (n + A.length + 1)).2)
        | ParseOutcome.err =>
          ((load_lines valid alloc A n).1 ++
              (load_lines valid alloc B (n + A.length + 1)).1,
            (load_lines valid alloc A n).2 +
              ((load_lines valid alloc B (n + A.length + 1)).2 + 1))) := by
  rw [load_lines_append valid alloc A (l :: B) n]
  show (_, _) = _
  rw [show load_lines valid alloc (l :: B) (n + A.length) =
      (let res := load_lines valid alloc B (n + A.length + 1)
       match parse_line valid (alloc (n + A.length + 1)) l (n + A.length + 1) with
       | ParseOutcome.rule r => (r :: res.1, res.2)
       | ParseOutcome.skip => res
       | ParseOutcome.err => (res.1, res.2 + 1)) from rfl]
  cases hp : parse_line valid (alloc (n + A.length + 1)) l (n + A.length + 1) <;> simp

/-- Any line on which `parse_line` reports an engine rejection makes the
final error counter of the fold positive. -/
lemma load_lines_err_pos (valid : String → Bool) (alloc : Nat → Alloc) :
    ∀ (L : List (List Char)) (n i : Nat) (hi : i < L.length),
      parse_line valid (alloc (n + i + 1)) (L.get ⟨i, hi⟩) (n + i + 1) =
        ParseOutcome.err →
      0 < (load_lines valid alloc L n).2 := by
  intro L
  induction L with
  | nil => intro n i hi; simp at hi
  | cons l ls ih =>
    intro n i hi herr
    cases i with
    | zero =>
      simp only [List.get] at herr
      have : n + 0 + 1 = n + 1 := by omega
      rw [this] at herr
      simp only [load_lines, herr]
      omega
    | succ j =>
      have hj : j < ls.length := by simpa using hi
      have herr2 : parse_line valid (alloc ((n + 1) + j + 1)) (ls.get ⟨j, hj⟩)
          ((n + 1) + j + 1) = ParseOutcome.err := by
        have e : (n + 1) + j + 1 = n + (j + 1) + 1 := by omega
        rw [e]
        exact herr
      have := ih (n + 1) j hj herr2
      simp only [load_lines]
      cases hp : parse_line valid (alloc (n + 1)) l (n + 1) <;> simp [hp] <;> omega

/-- The lines of a file are never more numerous than its characters. -/
lemma length_le_unlines : ∀ (L : List (List Char)), L.length ≤ (unlines L).length := by
  intro L
  induction L with
  | nil => simp [unlines]
  | cons l ls ih =>
    simp only [unlines, List.length_cons, List.length_append]
    omega

/-- On a root-owned, not world-writable, regular file with `fdopen`
succeeding, `load_rules` runs the line loop and returns its results. -/
lemma load_rules_goodFile (valid : String → Bool) (alloc : Nat → Alloc)
    (st : FileStat) (content : List Char)
    (hu : st.uid = 0) (hw : st.worldWritable = false) (hr : st.regular = true) :
    (load_rules valid alloc (FileSys.file st true content)).list =
      (load_loop valid alloc (content.length + 1) content 0).1 ∧
    (load_rules valid alloc (FileSys.file st true content)).ret =
      (load_loop valid alloc (content.length + 1) content 0).2 := by
  simp [load_rules, hu, hw, hr]

/-- C3: a config file whose descriptor stat shows a non-root owner, the
world-writable bit, or a non-regular file type makes `load_rules` fail hard
(nonzero return, empty rule list) without reading any line: the result is
the same for every file content. -/
theorem C3_permission_gate (valid : String → Bool) (alloc : Nat → Alloc)
    (st : FileStat) (fdok : Bool) (content content2 : List Char)
    (hbad : st.uid ≠ 0 ∨ st.worldWritable = true ∨ st.regular = false) :
    (load_rules valid alloc (FileSys.file st fdok content)).ret ≠ 0 ∧
    (load_rules valid alloc (FileSys.file st fdok content)).list = [] ∧
    load_rules valid alloc (FileSys.file st fdok content) =
      load_rules valid alloc (FileSys.file st fdok content2) := by
  by_cases h1 : st.uid ≠ 0
  · simp [load_rules, h1]
  · by_cases h2 : st.worldWritable = true
    · simp [load_rules, h1, h2]
    · have h3 : st.regular = false := by
        rcases hbad with h | h | h
        · exact absurd h h1
        · exact absurd h h2
        · exact h
      simp [load_rules, h1, h2, h3]

/-- Witness for C3: a file owned by uid 7 is rejected whatever it contains. -/
theorem C3_permission_gate_witness :
    (load_rules (fun _ => true) (fun _ => ⟨true, true, true⟩)
        (FileSys.file ⟨7, false, true⟩ true ['o', 'k', '\n'])).ret ≠ 0 ∧
    (load_rules (fun _ => true) (fun _ => ⟨true, true, true⟩)
        (FileSys.file ⟨7, false, true⟩ true ['o', 'k', '\n'])).list = [] ∧
    load_rules (fun _ => true) (fun _ => ⟨true, true, true⟩)
        (FileSys.file ⟨7, false, true⟩ true ['o', 'k', '\n']) =
      load_rules (fun _ => true) (fun _ => ⟨true, true, true⟩)
        (FileSys.file ⟨7, false, true⟩ true []) :=
  C3_permission_gate (fun _ => true) (fun _ => ⟨true, true, true⟩)
    ⟨7, false, true⟩ true ['o', 'k', '\n'] [] (Or.inl (by decide))

/-- C5: a line the matching engine rejects increments the error count and
is excluded from the rule list, but the remaining lines are still
processed; and `load_rules` reports failure (nonzero return) exactly when
the final error count is nonzero or one of the open/stat/permission/fdopen
steps failed. -/
theorem C5_error_counting (valid : String → Bool) (alloc : Nat → Alloc)
    (st : FileStat) (A B : List (List Char)) (l : List Char)
    (hst : st.uid = 0 ∧ st.worldWritable = false ∧ st.regular = true)
    (hshort : ∀ x ∈ A ++ l :: B, '\n' ∉ x ∧ x.length ≤ 1022)
    (herr : parse_line valid (alloc (A.length + 1)) l (A.length + 1) =
      ParseOutcome.err) :
    ((load_rules valid alloc (FileSys.file st true (unlines (A ++ l :: B)))).list =
        (load_lines valid alloc A 0).1 ++ (load_lines valid alloc B (A.length + 1)).1) ∧
    ((load_rules valid alloc (FileSys.file st true (unlines (A ++ l :: B)))).ret =
        (load_lines valid alloc A 0).2 +
          ((load_lines valid alloc B (A.length + 1)).2 + 1)) ∧
    (∀ fs, (load_rules valid alloc fs).ret ≠ 0 ↔
        (earlyFailure fs = true ∨ loopErrors valid alloc fs ≠ 0)) := by
  obtain ⟨hu, hw, hr⟩ := hst
  have hloop : load_loop valid alloc ((unlines (A ++ l :: B)).length + 1)
      (unlines (A ++ l :: B)) 0 = load_lines valid alloc (A ++ l :: B) 0 :=
    load_loop_unlines valid alloc (A ++ l :: B) 0 _ hshort
      (by have := length_le_unlines (A ++ l :: B); omega)
  have hmid := load_lines_mid valid alloc A B l 0
  simp only [Nat.zero_add] at hmid
  rw [herr] at hmid
  refine ⟨?_, ?_, ?_⟩
  · rw [(load_rules_goodFile valid alloc st _ hu hw hr).1, hloop, hmid]
  · rw [(load_rules_goodFile valid alloc st _ hu hw hr).2, hloop, hmid]
  · intro fs
    cases fs with
    | absent => simp [load_rules, earlyFailure]
    | openError => simp [load_rules, earlyFailure]
    | statError => simp [load_rules, earlyFailure]
    | file st2 fdok2 content2 =>
      by_cases g1 : st2.uid ≠ 0
      · simp [load_rules, earlyFailure, g1, bne_iff_ne]
      · have hu2 : st2.uid = 0 := not_ne_iff.mp g1
        cases hww : st2.worldWritable with
        | true => simp [load_rules, earlyFailure, hu2, hww]
        | false =>
          cases hreg : st2.regular with
          | false => simp [load_rules, earlyFailure, hu2, hww, hreg]
          | true =>
            cases hfd : fdok2 with
            | false => simp [load_rules, earlyFailure, hu2, hww, hreg, hfd]
            | true => simp [load_rules, earlyFailure, loopErrors, hu2, hww, hreg, hfd]

/-- Witness for C5: file with lines "a", "b", "c" where only "b" is
rejected by the engine. -/
theorem C5_error_counting_witness :
    ((load_rules (fun s => s != "b") (fun _ => ⟨true, true, true⟩)
        (FileSys.file ⟨0, false, true⟩ true
          (unlines [['a'], ['b'], ['c']]))).list =
        (load_lines (fun s => s != "b") (fun _ => ⟨true, true, true⟩) [['a']] 0).1 ++
          (load_lines (fun s => s != "b") (fun _ => ⟨true, true, true⟩) [['c']] 2).1) ∧
    ((load_rules (fun s => s != "b") (fun _ => ⟨true, true, true⟩)
        (FileSys.file ⟨0, false, true⟩ true
          (unlines [['a'], ['b'], ['c']]))).ret =
        (load_lines (fun s => s != "b") (fun _ => ⟨true, true, true⟩) [['a']] 0).2 +
          ((load_lines (fun s => s != "b") (fun _ => ⟨true, true, true⟩) [['c']] 2).2 + 1)) ∧
    (∀ fs, (load_rules (fun s => s != "b") (fun _ => ⟨true, true, true⟩) fs).ret ≠ 0 ↔
        (earlyFailure fs = true ∨
          loopErrors (fun s => s != "b") (fun _ => ⟨true, true, true⟩) fs ≠ 0)) :=
  C5_error_counting (fun s => s != "b") (fun _ => ⟨true, true, true⟩)
    ⟨0, false, true⟩ [['a']] [['c']] ['b'] ⟨rfl, rfl, rfl⟩ (by decide) (by decide)

/-- C6 counterexample: the missing-file open failure and the generic open
failure are both logged at the same LOG_ERR severity, refuting the claim
that the two cases use different severity levels. -/
theorem C6_severity_counterexample :
    ((load_rules (fun _ => true) (fun _ => ⟨true, true, true⟩)
        FileSys.absent).log.map LogMsg.sev = [Severity.err]) ∧
    ((load_rules (fun _ => true) (fun _ => ⟨true, true, true⟩)
        FileSys.openError).log.map LogMsg.sev = [Severity.err]) :=
  ⟨rfl, rfl⟩

/-- C6 amended: both the ENOENT case and every other open failure produce a
LoadError and are logged at the same LOG_ERR severity; the two cases are
distinguished by different message texts, not by severity level. -/
theorem C6_open_failure_logging (valid : String → Bool) (alloc : Nat → Alloc) :
    (load_rules valid alloc FileSys.absent).ret ≠ 0 ∧
    (load_rules valid alloc FileSys.openError).ret ≠ 0 ∧
    (load_rules valid alloc FileSys.absent).log.map LogMsg.sev =
      (load_rules valid alloc FileSys.openError).log.map LogMsg.sev ∧
    (load_rules valid alloc FileSys.absent).log.map LogMsg.msg ≠
      (load_rules valid alloc FileSys.openError).log.map LogMsg.msg := by
  refine ⟨by simp [load_rules], by simp [load_rules], rfl, by simp [load_rules]⟩

/-- C9: if `malloc` or `strdup` fails inside `parse_line` on a valid
non-comment line, `parse_line` returns NULL without touching the error
counter, so the load silently omits that line's rule and its return value
is unaffected — overall success does not guarantee every valid line became
an active rule. -/
theorem C9_alloc_failure_silent (valid : String → Bool) (alloc : Nat → Alloc)
    (st : FileStat) (A B : List (List Char)) (l : List Char)
    (hst : st.uid = 0 ∧ st.worldWritable = false ∧ st.regular = true)
    (hshort : ∀ x ∈ A ++ l :: B, '\n' ∉ x ∧ x.length ≤ 1022)
    (hinit : (alloc (A.length + 1)).initOk = true)
    (hfail : (alloc (A.length + 1)).mallocOk = false ∨
      (alloc (A.length + 1)).strdupOk = false)
    (hne : l.dropWhile (fun c => c = ' ') ≠ [])
    (hnc : (l.dropWhile (fun c => c = ' ')).head? ≠ some '#') :
    parse_line valid (alloc (A.length + 1)) l (A.length + 1) = ParseOutcome.skip ∧
    ((load_rules valid alloc (FileSys.file st true (unlines (A ++ l :: B)))).list =
      (load_lines valid alloc A 0).1 ++ (load_lines valid alloc B (A.length + 1)).1) ∧
    ((load_rules valid alloc (FileSys.file st true (unlines (A ++ l :: B)))).ret =
      (load_lines valid alloc A 0).2 + (load_lines valid alloc B (A.length + 1)).2) := by
  obtain ⟨hu, hw, hr⟩ := hst
  have hcond : ¬(l.dropWhile (fun c => c = ' ') = [] ∨
      (l.dropWhile (fun c => c = ' ')).head? = some '#') := by
    rintro (h | h)
    · exact hne h
    · exact hnc h
  have hparse : parse_line valid (alloc (A.length + 1)) l (A.length + 1) =
      ParseOutcome.skip := by
    rcases hfail with hf | hf
    · simp [parse_line, hinit, hcond, hf]
    · cases hm : (alloc (A.length + 1)).mallocOk with
      | false => simp [parse_line, hinit, hcond, hm]
      | true => simp [parse_line, hinit, hcond, hm, hf]
  have hloop : load_loop valid alloc ((unlines (A ++ l :: B)).length + 1)
      (unlines (A ++ l :: B)) 0 = load_lines valid alloc (A ++ l :: B) 0 :=
    load_loop_unlines valid alloc (A ++ l :: B) 0 _ hshort
      (by have := length_le_unlines (A ++ l :: B); omega)
  have hmid := load_lines_mid valid alloc A B l 0
  simp only [Nat.zero_add] at hmid
  rw [hparse] at hmid
  refine ⟨hparse, ?_, ?_⟩
  · rw [(load_rules_goodFile valid alloc st _ hu hw hr).1, hloop, hmid]
  · rw [(load_rules_goodFile valid alloc st _ hu hw hr).2, hloop, hmid]

/-- Witness for C9: the only line of the file is valid and non-comment, but
its rule node allocation fails; the load still returns 0 with no rule. -/
theorem C9_alloc_failure_silent_witness :
    parse_line (fun _ => true) ((fun _ => (⟨true, false, true⟩ : Alloc)) 1) ['x'] 1 =
      ParseOutcome.skip ∧
    ((load_rules (fun _ => true) (fun _ => ⟨true, false, true⟩)
        (FileSys.file ⟨0, false, true⟩ true (unlines [['x']]))).list =
      (load_lines (fun _ => true) (fun _ => ⟨true, false, true⟩) [] 0).1 ++
        (load_lines (fun _ => true) (fun _ => ⟨true, false, true⟩) [] 1).1) ∧
    ((load_rules (fun _ => true) (fun _ => ⟨true, false, true⟩)
        (FileSys.file ⟨0, false, true⟩ true (unlines [['x']]))).ret =
      (load_lines (fun _ => true) (fun _ => ⟨true, false, true⟩) [] 0).2 +
        (load_lines (fun _ => true) (fun _ => ⟨true, false, true⟩) [] 1).2) :=
  C9_alloc_failure_silent (fun _ => true) (fun _ => ⟨true, false, true⟩)
    ⟨0, false, true⟩ [] [] ['x'] ⟨rfl, rfl, rfl⟩ (by decide) rfl (Or.inl rfl)
    (by decide) (by decide)

/-- C10: leading-whitespace stripping removes only ASCII spaces, not tabs:
a line beginning with a tab is never treated as blank or comment (even if a
hash sign follows the tab), the whole line including the tab is handed to
the matching engine, and an engine rejection counts toward the load error
count. -/
theorem C10_tab_line (valid : String → Bool) (a : Alloc) (rest : List Char) (n : Nat)
    (ha : a.initOk = true ∧ a.mallocOk = true ∧ a.strdupOk = true) :
    (parse_line valid a ('\t' :: rest) n =
      if valid (String.mk ('\t' :: rest)) then
        ParseOutcome.rule ⟨String.mk ('\t' :: rest), n⟩
      else ParseOutcome.err) ∧
    (valid (String.mk ('\t' :: rest)) = false →
      (load_lines valid (fun _ => a) ['\t' :: rest] n).2 = 1) := by
  obtain ⟨h1, h2, h3⟩ := ha
  have hdrop : ('\t' :: rest).dropWhile (fun c => c = ' ') = '\t' :: rest := by
    simp [List.dropWhile]
  have hcond : ¬(('\t' :: rest : List Char) = [] ∨
      ('\t' :: rest : List Char).head? = some '#') := by
    rintro (h | h) <;> simp at h
  constructor
  · simp [parse_line, h1, h2, h3, hdrop, hcond]
  · intro hval
    simp [load_lines, parse_line, h1, h2, h3, hdrop, hcond, hval]

/-- Witness for C10: a tab followed by a hash sign is still sent to the
engine; with the engine rejecting it, the load error count is 1. -/
theorem C10_tab_line_witness :
    parse_line (fun _ => false) ⟨true, true, true⟩ ('\t' :: ['#']) 0 =
      ParseOutcome.err ∧
    (load_lines (fun _ => false) (fun _ => ⟨true, true, true⟩) ['\t' :: ['#']] 0).2 = 1 :=
  ⟨by
    rw [(C10_tab_line (fun _ => false) ⟨true, true, true⟩ ['#'] 0 ⟨rfl, rfl, rfl⟩).1]
    rfl,
    (C10_tab_line (fun _ => false) ⟨true, true, true⟩ ['#'] 0 ⟨rfl, rfl, rfl⟩).2 rfl⟩

/-! ## reload_config (audisp-filter.c:423-439) -/

/-- The `reload_config` function: load the new rules into a fresh list; on
a nonzero `load_rules` return the new list is freed and the previous active
list is kept; otherwise the old list is freed and replaced. -/
def reload_config (valid : String → Bool) (alloc : Nat → Alloc) (fs : FileSys)
    (current : List FilterRule) : List FilterRule :=
  let r := load_rules valid alloc fs
  if r.ret ≠ 0 then current else r.list

/-- C2: a reload whose input file contains at least one line rejected by
the matching engine leaves the active rule set exactly as it was — no rule
of the new file becomes active and no previously active rule is removed. -/
theorem C2_reload_atomicity (valid : String → Bool) (alloc : Nat → Alloc)
    (st : FileStat) (fdok : Bool) (L : List (List Char)) (current : List FilterRule)
    (i : Nat) (hi : i < L.length)
    (hshort : ∀ x ∈ L, '\n' ∉ x ∧ x.length ≤ 1022)
    (herr : parse_line valid (alloc (i + 1)) (L.get ⟨i, hi⟩) (i + 1) =
      ParseOutcome.err) :
    reload_config valid alloc (FileSys.file st fdok (unlines L)) current = current := by
  have herr0 : parse_line valid (alloc (0 + i + 1)) (L.get ⟨i, hi⟩) (0 + i + 1) =
      ParseOutcome.err := by simpa using herr
  have hpos : 0 < (load_lines valid alloc L 0).2 :=
    load_lines_err_pos valid alloc L 0 i hi herr0
  have hret : (load_rules valid alloc (FileSys.file st fdok (unlines L))).ret ≠ 0 := by
    by_cases g1 : st.uid ≠ 0
    · simp [load_rules, g1]
    · have hu : st.uid = 0 := not_ne_iff.mp g1
      cases hww : st.worldWritable with
      | true => simp [load_rules, hu, hww]
      | false =>
        cases hreg : st.regular with
        | false => simp [load_rules, hu, hww, hreg]
        | true =>
          cases hfd : fdok with
          | false => simp [load_rules, hu, hww, hreg, hfd]
          | true =>
            have hloop : load_loop valid alloc ((unlines L).length + 1) (unlines L) 0 =
                load_lines valid alloc L 0 :=
              load_loop_unlines valid alloc L 0 _ hshort
                (by have := length_le_unlines L; omega)
            simp only [load_rules, hu, hww, hreg]
            simp [hloop]
            omega
  simp [reload_config, hret]

/-- Witness for C2: reloading a file whose second line the engine rejects
keeps the previously active single rule. -/
theorem C2_reload_atomicity_witness :
    reload_config (fun s => s == "a") (fun _ => ⟨true, true, true⟩)
      (FileSys.file ⟨0, false, true⟩ true (unlines [['a'], ['b']]))
      [⟨"old", 1⟩] = [⟨"old", 1⟩] :=
  C2_reload_atomicity (fun s => s == "a") (fun _ => ⟨true, true, true⟩)
    ⟨0, false, true⟩ true [['a'], ['b']] [⟨"old", 1⟩] 1 (by decide)
    (by decide) (by decide)

/-! ## Signal handlers (audisp-filter.c:398-421) -/

/-- The observable effects available to a signal handler: `kill(pid, sig)`,
setting the `stop` flag, and `auplugin_stop()`. -/
inductive SigAction
  | kill (pid : Int) (sig : Int)
  | setStop
  | aupluginStop
deriving DecidableEq

/-- The `term_handler` function (audisp-filter.c:405-412): the sequence of
effects it performs given the sender pid reported in `siginfo_t`
(`none` models a NULL `info` pointer), the parent pid, the consumer pid and
the delivered signal. -/
def term_handler (si_pid : Option Int) (ppid cpid sig : Int) : List SigAction :=
  match si_pid with
  | some p =>
    if p ≠ ppid then []
    else [SigAction.kill cpid sig, SigAction.setStop, SigAction.aupluginStop]
  | none => [SigAction.kill cpid sig, SigAction.setStop, SigAction.aupluginStop]

/-- Supervisor-visible state: the `stop` flag and the signals relayed so
far (pid, signal). -/
structure SupervisorState where
  stop : Bool
  sent : List (Int × Int)
deriving DecidableEq

/-- Interpretation of one handler effect on the supervisor state. -/
def applySigAction (st : SupervisorState) : SigAction → SupervisorState
  | SigAction.kill p s => { st with sent := st.sent ++ [(p, s)] }
  | SigAction.setStop => { st with stop := true }
  | SigAction.aupluginStop => st

/-- Run a handler's effect sequence on a state. -/
def runSigActions (st : SupervisorState) (acts : List SigAction) : SupervisorState :=
  acts.foldl applySigAction st

/-- C8: a termination signal whose sender is not the parent has no effect
at all (no relay, stop flag untouched, so the service loop keeps running);
a termination signal attributed to the parent relays the same signal to the
consumer first and only then sets the stop flag. -/
theorem C8_term_handler (p ppid cpid sig : Int) (st : SupervisorState) :
    (p ≠ ppid →
      term_handler (some p) ppid cpid sig = [] ∧
      runSigActions st (term_handler (some p) ppid cpid sig) = st) ∧
    (term_handler (some ppid) ppid cpid sig =
        [SigAction.kill cpid sig, SigAction.setStop, SigAction.aupluginStop] ∧
      runSigActions st (term_handler (some ppid) ppid cpid sig) =
        { stop := true, sent := st.sent ++ [(cpid, sig)] }) := by
  constructor
  · intro hne
    simp [term_handler, hne, runSigActions]
  · have hself : ¬ (ppid ≠ ppid) := by simp
    simp [term_handler, hself, runSigActions, applySigAction]

/-- Witness for C8: pid 5 is not the parent pid 3, so nothing happens. -/
theorem C8_term_handler_witness :
    term_handler (some 5) 3 7 15 = [] ∧
    runSigActions ⟨false, []⟩ (term_handler (some 5) 3 7 15) = ⟨false, []⟩ :=
  (C8_term_handler 5 3 7 15 ⟨false, []⟩).1 (by decide)

end AudispFilter
